import Mathlib

/-!
Shallow embedding of the refresh-pipeline core of the RPiZeroW ePaper display
server (Rust), together with theorems settling the frozen claims about its
specification.

The embedding follows the Rust sources:
  * `src/config.rs`      — time parsing, schedule periods/plans, validation
  * `src/scheduler.rs`   — consecutive-failure backoff of the refresh loop
  * `src/image_proc/download.rs` — bounded-retry fetch loop
  * `src/image_proc/dither.rs`   — Floyd-Steinberg dithering and packing
  * `src/display/epd7in3e.rs`    — panel driver buffer contract and init

Modelling conventions: Rust `u32`/`u64` values that the code keeps far from
overflow are modelled as `Nat` (each place where Rust saturates or could wrap
is noted at the definition); Rust `i16`/`i32` error-diffusion arithmetic is
modelled as `Int` (Rust `/` on signed integers truncates toward zero, which is
`Int.div`); Rust `String` is modelled as `List Char`; fallible Rust functions
returning `Result<T, E>` become `Except E' T`; a Rust panic (out-of-bounds
index) is modelled by returning `none` from an `Option`.
-/

/-- Strings from the Rust code are modelled as lists of characters. -/
abbrev Str := List Char

deriving instance DecidableEq for Except

/-- Structured counterpart of the Rust `ConfigError::ValidationError(String)`
variants.  The Rust type carries a formatted message; each constructor here
corresponds to one distinct `ValidationError` construction site in
`src/config.rs`, with the payload data that the message interpolates. -/
inductive ConfigError where
  /-- the split on a colon did not yield exactly two parts -/
  | invalidTimeFormat (s : Str)
  /-- the hour field failed `u32` parsing -/
  | invalidHour (s : Str)
  /-- the minutes field failed `u32` parsing -/
  | invalidMinutes (s : Str)
  /-- hour not below 24 or minutes not below 60 -/
  | timeOutOfRange (s : Str)
  /-- `interval_min` outside `1..=1440` -/
  | intervalOutOfRange (n : Nat)
  /-- plan name empty after trimming -/
  | emptyPlanName
  /-- plan has no periods -/
  | noPeriods
  /-- coverage table minute already marked -/
  | overlapAt (minute : Nat)
  /-- coverage table minute never marked -/
  | gapAt (minute : Nat)
  /-- no schedule plans configured -/
  | noPlans
  /-- two plans share a name -/
  | duplicatePlanName (name : Str)
  /-- a weekday has no assignment -/
  | missingDayAssignment
  /-- a weekday is assigned to a non-existent plan -/
  | unknownPlanFor (name : Str)
  /-- rotation not one of 0, 90, 180, 270 -/
  | badRotation
  /-- web port is zero -/
  | badWebPort
  /-- display width outside 100..=2000 -/
  | badDisplayWidth
  /-- display height outside 100..=2000 -/
  | badDisplayHeight
  deriving DecidableEq, Repr

/-- Value of an ASCII digit character, `none` for any other character.
Models the per-character acceptance of Rust `u32: FromStr`. -/
def digitVal (c : Char) : Option Nat :=
  if c.isDigit then some (c.toNat - 48) else none

/-- Accumulate decimal digits; `none` on a non-digit.  The empty list is
handled by `parseU32` (Rust rejects an empty digit string). -/
def parseDigitsAux (acc : Nat) : Str → Option Nat
  | [] => some acc
  | c :: rest =>
    match digitVal c with
    | some d => parseDigitsAux (acc * 10 + d) rest
    | none => none

/-- Parse a non-empty digit string. -/
def parseDigits : Str → Option Nat
  | [] => none
  | s => parseDigitsAux 0 s

/-- Model of Rust `str::parse::<u32>()`: an optional leading `+`, then one or
more decimal digits, and the value must fit in a `u32` (Rust reports
`PosOverflow` otherwise). -/
def parseU32 (s : Str) : Option Nat :=
  let body := match s with
    | '+' :: rest => parseDigits rest
    | _ => parseDigits s
  match body with
  | some v => if v < 2 ^ 32 then some v else none
  | none => none

namespace SchedulePeriod

/-- Model of `SchedulePeriod::parse_time` (src/config.rs): split on `:`,
parse both parts as `u32`, reject hour ≥ 24 or minutes ≥ 60, and return
`hours * 60 + minutes`. -/
def parse_time (time_str : Str) : Except ConfigError Nat :=
  match time_str.splitOn ':' with
  | [hs, ms] =>
    match parseU32 hs with
    | none => .error (.invalidHour time_str)
    | some hours =>
      match parseU32 ms with
      | none => .error (.invalidMinutes time_str)
      | some minutes =>
        if hours ≥ 24 ∨ minutes ≥ 60 then .error (.timeOutOfRange time_str)
        else .ok (hours * 60 + minutes)
  | _ => .error (.invalidTimeFormat time_str)

end SchedulePeriod

/-- Model of the Rust `SchedulePeriod` struct: start and end times as raw
`HH:MM` strings plus the refresh interval in minutes. -/
structure SchedulePeriod where
  start_time : Str
  end_time : Str
  interval_min : Nat
  deriving DecidableEq, Repr

namespace SchedulePeriod

/-- Model of `SchedulePeriod::start_minutes`. -/
def start_minutes (p : SchedulePeriod) : Except ConfigError Nat :=
  parse_time p.start_time

/-- Model of `SchedulePeriod::end_minutes`. -/
def end_minutes (p : SchedulePeriod) : Except ConfigError Nat :=
  parse_time p.end_time

/-- Model of `SchedulePeriod::spans_midnight`: end ≤ start. -/
def spans_midnight (p : SchedulePeriod) : Except ConfigError Bool := do
  let s ← p.start_minutes
  let e ← p.end_minutes
  pure (decide (e ≤ s))

/-- Model of `SchedulePeriod::contains_time`.  The Rust code branches on
`spans_midnight()?`, which re-parses the same two times; the parse results
are reused here, which yields the same value. -/
def contains_time (p : SchedulePeriod) (time_minutes : Nat) :
    Except ConfigError Bool := do
  let s ← p.start_minutes
  let e ← p.end_minutes
  if e ≤ s then
    pure (decide (s ≤ time_minutes) || decide (time_minutes < e))
  else
    pure (decide (s ≤ time_minutes) && decide (time_minutes < e))

/-- The Rust call sites use `if let Ok(true) = period.contains_time(t)`:
an error counts as "does not contain".  This Boolean view captures that. -/
def containsTimeB (p : SchedulePeriod) (m : Nat) : Bool :=
  match p.contains_time m with
  | .ok b => b
  | .error _ => false

/-- Model of `SchedulePeriod::validate`: both times parse and the interval
lies in `1..=1440`. -/
def validate (p : SchedulePeriod) : Except ConfigError Unit := do
  let _ ← p.start_minutes
  let _ ← p.end_minutes
  if p.interval_min < 1 ∨ p.interval_min > 1440 then
    .error (.intervalOutOfRange p.interval_min)
  else
    .ok ()

end SchedulePeriod

-- Sanity checks of the embedding on concrete inputs (spec scenarios).
example : SchedulePeriod.parse_time "06:00".data = .ok 360 := by decide
example : SchedulePeriod.parse_time "23:59".data = .ok 1439 := by decide
example : SchedulePeriod.parse_time "24:00".data =
    .error (.timeOutOfRange "24:00".data) := by decide
example : SchedulePeriod.parse_time "12:60".data =
    .error (.timeOutOfRange "12:60".data) := by decide
example : SchedulePeriod.parse_time "1200".data =
    .error (.invalidTimeFormat "1200".data) := by decide
example : SchedulePeriod.parse_time "a:05".data =
    .error (.invalidHour "a:05".data) := by decide
example : SchedulePeriod.parse_time "1:5".data = .ok 65 := by decide
example : SchedulePeriod.parse_time "+1:05".data = .ok 65 := by decide

/-- Model of the Rust `SchedulePlan` struct. -/
structure SchedulePlan where
  name : Str
  periods : List SchedulePeriod
  deriving DecidableEq, Repr

/-- Coverage tables (`vec![false; 1440]` in the Rust code) are modelled as
Boolean functions on minutes; only indices below 1440 are ever touched. -/
abbrev Cov := Nat → Bool

/-- Model of one marking loop of `SchedulePlan::validate_coverage`
(`for minute in lo..lo+len { if coverage[minute] { return Err(overlap) };
coverage[minute] = true }`): fail with the first already-marked minute of the
range, otherwise mark the whole range. -/
def markRange (cov : Cov) (lo len : Nat) : Except ConfigError Cov :=
  match (List.range' lo len).find? cov with
  | some m => .error (.overlapAt m)
  | none => .ok (fun m => (decide (lo ≤ m) && decide (m < lo + len)) || cov m)

/-- Marking of one period inside `SchedulePlan::validate_coverage`: a
midnight-wrapping period (end ≤ start) marks `start..1440` and then
`0..end`; a normal period marks `start..end`. -/
def coverPeriod (cov : Cov) (p : SchedulePeriod) : Except ConfigError Cov := do
  let s ← p.start_minutes
  let e ← p.end_minutes
  if e ≤ s then do
    let cov1 ← markRange cov s (1440 - s)
    markRange cov1 0 e
  else
    markRange cov s (e - s)

namespace SchedulePlan

/-- The special case opening `SchedulePlan::validate_coverage`: a single
period whose start and end strings are both exactly `"00:00"`. -/
def isDegenerateAllDay (plan : SchedulePlan) : Bool :=
  match plan.periods with
  | [p] => p.start_time == "00:00".data && p.end_time == "00:00".data
  | _ => false

/-- Model of `SchedulePlan::validate_coverage`: accept the degenerate
all-day plan unconditionally; otherwise mark each period's minutes, failing
on the first collision, then fail on the first unmarked minute. -/
def validate_coverage (plan : SchedulePlan) : Except ConfigError Unit :=
  if plan.isDegenerateAllDay then .ok ()
  else do
    let cov ← plan.periods.foldlM coverPeriod (fun _ => false)
    match (List.range 1440).find? (fun m => ! cov m) with
    | some m => .error (.gapAt m)
    | none => .ok ()

/-- Model of `SchedulePlan::validate`.  The Rust code wraps each period's
error message with the plan name and period index; the structured error is
propagated unchanged here (same ok/error outcome). -/
def validate (plan : SchedulePlan) : Except ConfigError Unit := do
  if plan.name.all Char.isWhitespace then .error .emptyPlanName
  else if plan.periods.isEmpty then .error .noPeriods
  else do
    plan.periods.forM (fun p => p.validate)
    plan.validate_coverage

/-- Model of `SchedulePlan::get_interval_for_time`: interval of the first
period containing the minute, else the first period's interval, else 60. -/
def get_interval_for_time (plan : SchedulePlan) (time_minutes : Nat) : Nat :=
  match plan.periods.find? (fun p => p.containsTimeB time_minutes) with
  | some p => p.interval_min
  | none => ((plan.periods.head?).map (fun p => p.interval_min)).getD 60

/-- Model of `SchedulePlan::get_period_for_time`: the first period containing
the minute, with the plan's first period as fallback. -/
def get_period_for_time (plan : SchedulePlan) (time_minutes : Nat) :
    Option SchedulePeriod :=
  match plan.periods.find? (fun p => p.containsTimeB time_minutes) with
  | some p => some p
  | none => plan.periods.head?

/-- Model of `SchedulePlan::default_plan`. -/
def default_plan : SchedulePlan :=
  { name := "Default".data
    periods := [⟨"00:00".data, "00:00".data, 60⟩] }

end SchedulePlan

/-- The two-period plan from the spec's scenario section. -/
def dayNightPlan : SchedulePlan :=
  { name := "DayNight".data
    periods := [⟨"06:00".data, "22:00".data, 30⟩, ⟨"22:00".data, "06:00".data, 120⟩] }

example : SchedulePlan.default_plan.validate = .ok () := by decide
example : SchedulePlan.default_plan.get_interval_for_time 777 = 60 := by decide
example : dayNightPlan.get_interval_for_time (23 * 60 + 30) = 120 := by decide
example : dayNightPlan.get_interval_for_time (6 * 60) = 30 := by decide

set_option maxRecDepth 100000 in
example : dayNightPlan.validate = .ok () := by decide

/-- Model of the Rust `Weekday` enum. -/
inductive Weekday where
  | monday | tuesday | wednesday | thursday | friday | saturday | sunday
  deriving DecidableEq, Repr

namespace Weekday

/-- Model of `Weekday::all`. -/
def all : List Weekday :=
  [.monday, .tuesday, .wednesday, .thursday, .friday, .saturday, .sunday]

end Weekday

/-- Model of the Rust `Config` struct (the fields consumed by validation and
the refresh pipeline; the legacy migration-only fields are omitted because
`migrate_legacy_config` clears them before validation runs). -/
structure Config where
  image_url : Str
  schedule_plans : List SchedulePlan
  /-- The Rust `DayAssignments` `HashMap<Weekday, String>` as a partial map. -/
  day_assignments : Weekday → Option Str
  rotation : Nat
  mirror_h : Bool
  mirror_v : Bool
  scale_to_fit : Bool
  rotate_first : Bool
  display_width : Nat
  display_height : Nat
  web_port : Nat
  verbose : Bool

namespace Config

/-- The duplicate-name check of `Config::validate` interleaved with per-plan
validation, as in the Rust loop over `schedule_plans` with a `HashSet` of
seen names. -/
def validatePlansLoop : List Str → List SchedulePlan → Except ConfigError Unit
  | _, [] => .ok ()
  | seen, plan :: rest =>
    if seen.contains plan.name then .error (.duplicatePlanName plan.name)
    else do
      plan.validate
      validatePlansLoop (plan.name :: seen) rest

/-- The day-assignment check of `Config::validate`: every weekday maps to
the name of an existing plan. -/
def validateDays (c : Config) : Except ConfigError Unit :=
  Weekday.all.forM fun day =>
    match c.day_assignments day with
    | none => .error .missingDayAssignment
    | some name =>
      if c.schedule_plans.any (fun p => p.name == name) then .ok ()
      else .error (.unknownPlanFor name)

/-- Model of `Config::validate` (src/config.rs): plans non-empty, no
duplicate plan names, every plan valid, every weekday assigned to an
existing plan, rotation in {0, 90, 180, 270}, web port non-zero, and both
display dimensions within 100..=2000. -/
def validate (c : Config) : Except ConfigError Unit := do
  if c.schedule_plans.isEmpty then .error .noPlans
  else do
    validatePlansLoop [] c.schedule_plans
    c.validateDays
    if c.rotation = 0 ∨ c.rotation = 90 ∨ c.rotation = 180 ∨ c.rotation = 270 then
      pure ()
    else .error .badRotation
    if c.web_port = 0 then .error .badWebPort else pure ()
    if c.display_width < 100 ∨ c.display_width > 2000 then .error .badDisplayWidth
    else pure ()
    if c.display_height < 100 ∨ c.display_height > 2000 then .error .badDisplayHeight
    else pure ()

/-- Model of `Config::default` (geometry 800x480, single default plan on all
weekdays). -/
def defaultConfig : Config :=
  { image_url := []
    schedule_plans := [SchedulePlan.default_plan]
    day_assignments := fun _ => some "Default".data
    rotation := 0
    mirror_h := false
    mirror_v := false
    scale_to_fit := true
    rotate_first := true
    display_width := 800
    display_height := 480
    web_port := 8888
    verbose := false }

end Config

/-- A configuration identical to the default except for a smaller display
geometry; every field passes `Config::validate`. -/
def cfg400 : Config :=
  { Config.defaultConfig with display_width := 400, display_height := 300 }

example : Config.defaultConfig.validate = .ok () := by decide
example : cfg400.validate = .ok () := by decide

namespace Scheduler

/-- `Scheduler::MAX_CONSECUTIVE_FAILURES`. -/
def MAX_CONSECUTIVE_FAILURES : Nat := 5

/-- `Scheduler::FAILURE_BACKOFF_MULTIPLIER`. -/
def FAILURE_BACKOFF_MULTIPLIER : Nat := 2

/-- `Scheduler::MAX_BACKOFF_SECS` (1 hour). -/
def MAX_BACKOFF_SECS : Nat := 3600

/-- Model of `Scheduler::get_effective_interval` (src/scheduler.rs), with
durations in whole seconds.  The Rust `u64::saturating_mul` followed by
`.min(3600)` coincides with plain `Nat` multiplication followed by
`min _ 3600`, because saturation only ever replaces a product that is at
least `u64::MAX`, which is far above 3600. -/
def get_effective_interval (failures : Nat) (base_interval : Nat) : Nat :=
  if failures ≥ MAX_CONSECUTIVE_FAILURES then
    let exponent := min (failures - MAX_CONSECUTIVE_FAILURES + 1) 6
    let multiplier := FAILURE_BACKOFF_MULTIPLIER ^ exponent
    min (base_interval * multiplier) MAX_BACKOFF_SECS
  else
    base_interval

/-- The three ways `Scheduler::refresh_display` can end, as they affect the
failure counter. -/
inductive RefreshOutcome where
  /-- no image URL configured: early return, counter untouched -/
  | noUrl
  /-- `process_and_display` returned `Ok`: counter swapped to 0 -/
  | success
  /-- `process_and_display` returned `Err`: counter incremented -/
  | failure
  deriving DecidableEq, Repr

/-- The effect of one `Scheduler::refresh_display` call on the
consecutive-failure counter. -/
def counterAfter (failures : Nat) : RefreshOutcome → Nat
  | .noUrl => failures
  | .success => 0
  | .failure => failures + 1

end Scheduler

/-- Structured counterpart of the Rust `DownloadError` enum
(src/image_proc/download.rs). -/
inductive DownloadError where
  | requestError
  | httpError (status : Nat)
  | decodeError
  | emptyUrl
  | timeout
  deriving DecidableEq, Repr

/-- What the network returns for one attempt of the fetch loop: a transport
failure, or a response with a status code and a body (with `none` modelling
a failure while reading the body bytes). -/
inductive HttpResponse where
  | fail
  | resp (status : Nat) (body : Option (List Nat))
  deriving DecidableEq, Repr

/-- `reqwest::StatusCode::is_success`: the 2xx range. -/
def statusSuccess (status : Nat) : Bool :=
  decide (200 ≤ status) && decide (status ≤ 299)

/-- One iteration body of `download_with_retry`: `Ok bytes` is the terminal
success; an error becomes the new `last_error` and the loop continues. -/
def attemptStep : HttpResponse → Except DownloadError (List Nat)
  | .fail => .error .requestError
  | .resp status body =>
    if statusSuccess status then
      match body with
      | some bytes => .ok bytes
      | none => .error .requestError
    else
      .error (.httpError status)

/-- The sleep performed before the attempt with 0-based index `a`
(`if attempt > 0 { sleep(retry_delay * 2^(attempt-1)) }` in the source):
no sleep before the first attempt. -/
def delayOpt (retry_delay a : Nat) : Option Nat :=
  if a > 0 then some (retry_delay * 2 ^ (a - 1)) else none

/-- The loop of `download_with_retry` (src/image_proc/download.rs).
`responses` gives the network's answer to each attempt (0-based index),
`rem` is the number of loop iterations left, `attempt` the current 0-based
attempt index, and `delays` records, per attempt, the sleep performed before
it (`none` for the first attempt, which is not preceded by a sleep).
On exhaustion the last error is returned, with `Timeout` when no attempt
was ever made. -/
def downloadWithRetryGo (responses : Nat → HttpResponse) (retry_delay : Nat) :
    Nat → Nat → Option DownloadError → List (Option Nat) →
    List (Option Nat) × Except DownloadError (List Nat)
  | 0, _, lastError, delays => (delays, .error (lastError.getD .timeout))
  | rem + 1, attempt, _lastError, delays =>
    let delays := delays ++ [delayOpt retry_delay attempt]
    match attemptStep (responses attempt) with
    | .ok bytes => (delays, .ok bytes)
    | .error e => downloadWithRetryGo responses retry_delay rem (attempt + 1) (some e) delays

/-- Model of `download_with_retry`: run up to `max_retries` attempts.  The
first component of the result is the per-attempt delay trace. -/
def download_with_retry (responses : Nat → HttpResponse)
    (max_retries retry_delay : Nat) :
    List (Option Nat) × Except DownloadError (List Nat) :=
  downloadWithRetryGo responses retry_delay max_retries 0 none []

example :
    download_with_retry (fun _ => .resp 500 (some [])) 3 2 =
      ([none, some 2, some 4], .error (.httpError 500)) := by decide
example :
    download_with_retry (fun _ => .resp 200 (some [7])) 3 2 =
      ([none], .ok [7]) := by decide

/-- Flattened model of the Rust `DisplayError` enum (src/display/epd7in3e.rs);
the nested `GpioError`/`SpiError` sources are collapsed to one constructor
each. -/
inductive DisplayError where
  /-- a GPIO failure, in particular `GpioError::BusyTimeout` -/
  | busyTimeout
  /-- an SPI write failure -/
  | spiWrite
  | notInitialized
  | invalidBufferSize (expected actual : Nat)
  deriving DecidableEq, Repr

/-- The byte-level operations the panel driver performs on the Bus Link
(GPIO lines plus SPI writes). -/
inductive BusOp where
  | powerOn
  | powerOff
  | reset
  | waitBusy
  | sleepMs (ms : Nat)
  /-- `send_command` -/
  | cmd (c : Nat)
  /-- `send_command_data` -/
  | cmdData (c : Nat) (data : List Nat)
  /-- `write_data_bulk` of the frame buffer -/
  | dataBulk (data : List Nat)
  deriving DecidableEq, Repr

/-- Which bus operations are fallible in the source: `wait_busy` can time
out and the SPI writes can fail; `power_on`, `power_off`, `reset` and the
plain sleeps return `()` in the Rust code. -/
def BusOp.canFail : BusOp → Bool
  | .waitBusy | .cmd _ | .cmdData _ _ | .dataBulk _ => true
  | _ => false

/-- A fault model for the Bus Link: `fault i` is the error injected at the
i-th bus operation of a sequence, if any; infallible operations ignore it. -/
abbrev BusFault := Nat → Option DisplayError

/-- The fault-free bus. -/
def noFault : BusFault := fun _ => none

/-- Run a sequence of bus operations against a fault model, returning the
prefix of operations that completed and the overall outcome: execution
stops at the first injected failure, whose error propagates unchanged. -/
def runOps (fault : BusFault) : List BusOp → Nat → List BusOp × Except DisplayError Unit
  | [], _ => ([], .ok ())
  | op :: rest, i =>
    match (if op.canFail then fault i else none) with
    | some e => ([], .error e)
    | none =>
      let (trace, res) := runOps fault rest (i + 1)
      (op :: trace, res)

/-- Panel driver state: the `initialized` flag of the Rust `Epd7in3e`
struct. -/
structure Epd7in3e where
  initialized : Bool
  deriving DecidableEq, Repr

namespace Epd7in3e

/-- `WIDTH` (fixed panel width). -/
def WIDTH : Nat := 800

/-- `HEIGHT` (fixed panel height). -/
def HEIGHT : Nat := 480

/-- `BUFFER_SIZE = WIDTH * HEIGHT / 2`. -/
def BUFFER_SIZE : Nat := WIDTH * HEIGHT / 2

/-- The fixed bus-operation sequence of `Epd7in3e::init`, in source order:
power-up, reset, busy-wait, settle sleep, the vendor command table, then
power-on and a final busy-wait. -/
def initOps : List BusOp :=
  [ .powerOn
  , .reset
  , .waitBusy
  , .sleepMs 30
  , .cmdData 0xAA [0x49, 0x55, 0x20, 0x08, 0x09, 0x18]
  , .cmdData 0x01 [0x3F]
  , .cmdData 0x00 [0x5F, 0x69]
  , .cmdData 0x03 [0x00, 0x54, 0x00, 0x44]
  , .cmdData 0x05 [0x40, 0x1F, 0x1F, 0x2C]
  , .cmdData 0x06 [0x6F, 0x1F, 0x17, 0x49]
  , .cmdData 0x08 [0x6F, 0x1F, 0x1F, 0x22]
  , .cmdData 0x30 [0x03]
  , .cmdData 0x50 [0x3F]
  , .cmdData 0x60 [0x02, 0x00]
  , .cmdData 0x61 [0x03, 0x20, 0x01, 0xE0]
  , .cmdData 0x84 [0x01]
  , .cmdData 0xE3 [0x2F]
  , .cmd 0x04
  , .waitBusy ]

/-- Model of `Epd7in3e::init`: run the init sequence; only when every bus
operation succeeds is the `initialized` flag set (the Rust `?` operator
returns before the `self.initialized = true` assignment on any error). -/
def init (e : Epd7in3e) (fault : BusFault) :
    Epd7in3e × List BusOp × Except DisplayError Unit :=
  let (trace, res) := runOps fault initOps 0
  match res with
  | .ok _ => ({ initialized := true }, trace, .ok ())
  | .error er => (e, trace, .error er)

/-- The `TurnOnDisplay` sub-sequence run after the frame transfer. -/
def turnOnDisplayOps : List BusOp :=
  [ .cmd 0x04, .waitBusy
  , .cmdData 0x12 [0x00], .waitBusy
  , .cmdData 0x02 [0x00], .waitBusy ]

/-- The bus operations of a successful `display`: the `DATA_START` command,
the bulk frame transfer, then the refresh sub-sequence. -/
def displayOps (buffer : List Nat) : List BusOp :=
  [.cmd 0x10, .dataBulk buffer] ++ turnOnDisplayOps

/-- Model of `Epd7in3e::display`: reject when uninitialized, then reject a
buffer whose length is not exactly `BUFFER_SIZE` — both before any bus
operation — then transfer and refresh. -/
def display (e : Epd7in3e) (fault : BusFault) (buffer : List Nat) :
    List BusOp × Except DisplayError Unit :=
  if e.initialized = false then
    ([], .error .notInitialized)
  else if buffer.length ≠ BUFFER_SIZE then
    ([], .error (.invalidBufferSize BUFFER_SIZE buffer.length))
  else
    runOps fault (displayOps buffer) 0

end Epd7in3e

example : Epd7in3e.BUFFER_SIZE = 192000 := by decide
example :
    (Epd7in3e.init ⟨false⟩ (fun i => if i = 2 then some .busyTimeout else none)).1 =
      ⟨false⟩ := by decide

/-- Triple of signed channel values used by the error-diffusion rows. -/
abbrev I3 := Int × Int × Int

/-- The fixed 7-entry palette of `src/image_proc/dither.rs` (RGB triples,
in palette-index order Black, White, Yellow, Red, Orange, Blue, Green). -/
def PALETTE : List I3 :=
  [ (0, 0, 0)
  , (255, 255, 255)
  , (255, 255, 0)
  , (255, 0, 0)
  , (255, 128, 0)
  , (0, 0, 255)
  , (0, 255, 0) ]

/-- Squared Euclidean RGB distance, as in `find_nearest_color`. -/
def sqDist (r g b : Int) (p : I3) : Int :=
  (r - p.1) * (r - p.1) + (g - p.2.1) * (g - p.2.1) + (b - p.2.2) * (b - p.2.2)

/-- Model of `find_nearest_color`: index of the palette entry with minimal
squared distance.  Rust `Iterator::min_by_key` returns the first of several
equal minima, which the strict `<` in the fold reproduces. -/
def find_nearest_color (r g b : Int) : Nat :=
  let step := fun (acc : Option (Nat × Int)) (ic : Nat × I3) =>
    let d := sqDist r g b ic.2
    match acc with
    | none => some (ic.1, d)
    | some (bi, bd) => if d < bd then some (ic.1, d) else some (bi, bd)
  match PALETTE.enum.foldl step none with
  | some (i, _) => i
  | none => 0

/-- `calculate_buffer_size` (2 pixels per byte, integer division). -/
def calculate_buffer_size (width height : Nat) : Nat :=
  width * height / 2

/-- An RGB image as the dither stage sees it: dimensions plus a total pixel
accessor (the Rust `RgbImage::get_pixel` is always called in bounds). -/
structure ImageRGB where
  width : Nat
  height : Nat
  pixel : Nat → Nat → Nat × Nat × Nat

/-- Rust `i16::clamp(0, 255)`. -/
def clamp255 (v : Int) : Int := max 0 (min v 255)

/-- Componentwise `+=` at one index of an error row; the Rust call sites
guard the index so it is always in bounds, and `List.set` is the identity
out of bounds. -/
def addAt (row : List I3) (i : Nat) (d : I3) : List I3 :=
  match row.get? i with
  | some v => row.set i (v.1 + d.1, v.2.1 + d.2.1, v.2.2 + d.2.2)
  | none => row

/-- A checked write into the packed output buffer.  `result[byte_idx] = v`
in Rust panics when `byte_idx` is out of bounds; that panic is modelled by
`none`. -/
def setByte (buf : List Nat) (i : Nat) (f : Nat → Nat) : Option (List Nat) :=
  match buf.get? i with
  | some old => some (buf.set i (f old))
  | none => none

/-- State threaded through the dither loops: the two error rows and the
packed output buffer. -/
structure DitherSt where
  curr : List I3
  next : List I3
  result : List Nat

/-- Rust truncating division by 16 of a (possibly negative) diffused error:
`Int.div` rounds toward zero exactly as Rust `/` on `i16`. -/
def diffDiv16 (v : Int) : Int := Int.tdiv v 16

/-- The packing write for one pixel: even x overwrites the byte with the
index in the high nibble, odd x ors the index into the low nibble. -/
def ditherWrite (x color_idx : Nat) : Nat → Nat :=
  if x % 2 = 0 then fun _ => color_idx <<< 4 else fun old => old ||| color_idx

/-- The body of the inner `for x` loop of `dither_image` for one pixel:
clamp the accumulated channel values, pick the nearest palette color,
diffuse the quantization error (7/16 right, 3/16 bottom-left, 5/16 bottom,
1/16 bottom-right, each guarded as in the source), then pack the 4-bit
palette index (high nibble for even x — overwriting the byte — low nibble
or-ed in for odd x). -/
def ditherPixel (w h y x : Nat) (st : DitherSt) : Option DitherSt :=
  let rgb := st.curr.getD x (0, 0, 0)
  let r := clamp255 rgb.1
  let g := clamp255 rgb.2.1
  let b := clamp255 rgb.2.2
  let color_idx := find_nearest_color r g b
  let pal := PALETTE.getD color_idx (0, 0, 0)
  let errR := r - pal.1
  let errG := g - pal.2.1
  let errB := b - pal.2.2
  let curr1 :=
    if x + 1 < w then
      addAt st.curr (x + 1)
        (diffDiv16 (errR * 7), diffDiv16 (errG * 7), diffDiv16 (errB * 7))
    else st.curr
  let next1 :=
    if y + 1 < h then
      let n0 :=
        if x > 0 then
          addAt st.next (x - 1)
            (diffDiv16 (errR * 3), diffDiv16 (errG * 3), diffDiv16 (errB * 3))
        else st.next
      let n1 := addAt n0 x
        (diffDiv16 (errR * 5), diffDiv16 (errG * 5), diffDiv16 (errB * 5))
      if x + 1 < w then
        addAt n1 (x + 1) (diffDiv16 errR, diffDiv16 errG, diffDiv16 errB)
      else n1
    else st.next
  let byte_idx := (y * w + x) / 2
  (setByte st.result byte_idx (ditherWrite x color_idx)).map
    (fun res => { curr := curr1, next := next1, result := res })

/-- The inner `for x in 0..width` loop; `rem` counts the remaining columns
(`rem + x = width` at every call). -/
def ditherRowGo (w h y : Nat) : Nat → Nat → DitherSt → Option DitherSt
  | 0, _, st => some st
  | rem + 1, x, st =>
    match ditherPixel w h y x st with
    | some st1 => ditherRowGo w h y rem (x + 1) st1
    | none => none

/-- Loading of one image row into the current error row
(`curr_row[x] += pixel`). -/
def loadRow (img : ImageRGB) (y : Nat) (row : List I3) : List I3 :=
  row.mapIdx fun x v =>
    let p := img.pixel x y
    (v.1 + (p.1 : Int), v.2.1 + (p.2.1 : Int), v.2.2 + (p.2.2 : Int))

/-- The outer `for y in 0..height` loop: load the row, process it, then
swap the rows and clear the new next row. -/
def ditherRowsGo (img : ImageRGB) : Nat → Nat → DitherSt → Option DitherSt
  | 0, _, st => some st
  | rem + 1, y, st =>
    let st0 : DitherSt := { st with curr := loadRow img y st.curr }
    match ditherRowGo img.width img.height y img.width 0 st0 with
    | some st1 =>
      ditherRowsGo img rem (y + 1)
        { curr := st1.next
          next := st1.curr.map (fun _ => ((0 : Int), (0 : Int), (0 : Int)))
          result := st1.result }
    | none => none

/-- Model of `dither_image` (src/image_proc/dither.rs).  A `none` result
models the Rust panic on an out-of-bounds write into the packed buffer. -/
def dither_image (img : ImageRGB) : Option (List Nat) :=
  let init : DitherSt :=
    { curr := List.replicate img.width (0, 0, 0)
      next := List.replicate img.width (0, 0, 0)
      result := List.replicate (calculate_buffer_size img.width img.height) 0 }
  (ditherRowsGo img img.height 0 init).map (fun st => st.result)

/-- An all-white RGB image of the given dimensions. -/
def whiteImg (w h : Nat) : ImageRGB :=
  { width := w, height := h, pixel := fun _ _ => (255, 255, 255) }

example : find_nearest_color 255 255 255 = 1 := by decide
example : find_nearest_color 0 0 0 = 0 := by decide
example : find_nearest_color 250 120 10 = 4 := by decide
example : dither_image (whiteImg 2 2) = some [0x11, 0x11] := by decide
example : dither_image (whiteImg 3 3) = none := by decide

/-! ## Theorems settling the claims -/

/-- C4: below the threshold of 5 consecutive failures the scheduler uses the
base interval unmodified; at or above it the effective interval equals
`base * 2^min(failures - 5 + 1, 6)` capped at 3600 seconds, is non-decreasing
in the failure count, and the counter (hence the interval) returns to base on
the next successful refresh. -/
theorem c4_scheduler_backoff :
    (∀ failures base, failures < Scheduler.MAX_CONSECUTIVE_FAILURES →
      Scheduler.get_effective_interval failures base = base)
    ∧ (∀ failures base, Scheduler.MAX_CONSECUTIVE_FAILURES ≤ failures →
      Scheduler.get_effective_interval failures base =
        min (base * 2 ^ (min (failures - 5 + 1) 6)) 3600)
    ∧ (∀ f₁ f₂ base, Scheduler.MAX_CONSECUTIVE_FAILURES ≤ f₁ → f₁ ≤ f₂ →
      Scheduler.get_effective_interval f₁ base ≤
        Scheduler.get_effective_interval f₂ base)
    ∧ (∀ failures base, Scheduler.counterAfter failures .success = 0 ∧
      Scheduler.get_effective_interval (Scheduler.counterAfter failures .success)
        base = base) := by
  refine ⟨?_, ?_, ?_, ?_⟩
  · intro failures base h
    unfold Scheduler.get_effective_interval
    rw [if_neg (by simpa [Scheduler.MAX_CONSECUTIVE_FAILURES] using Nat.not_le.mpr h)]
  · intro failures base h
    unfold Scheduler.get_effective_interval
    rw [if_pos h]
    simp [Scheduler.MAX_CONSECUTIVE_FAILURES, Scheduler.FAILURE_BACKOFF_MULTIPLIER,
      Scheduler.MAX_BACKOFF_SECS]
  · intro f₁ f₂ base h1 h2
    unfold Scheduler.get_effective_interval
    rw [if_pos h1, if_pos (le_trans h1 h2)]
    refine min_le_min ?_ le_rfl
    refine Nat.mul_le_mul_left _ ?_
    refine Nat.pow_le_pow_right (by decide) ?_
    exact min_le_min (by omega) le_rfl
  · intro failures base
    exact ⟨rfl, rfl⟩

/-- Witness for C4 at concrete inputs. -/
theorem c4_scheduler_backoff_witness :
    Scheduler.get_effective_interval 3 600 = 600 ∧
    Scheduler.get_effective_interval 7 600 = min (600 * 2 ^ (min (7 - 5 + 1) 6)) 3600 ∧
    Scheduler.get_effective_interval 5 600 ≤ Scheduler.get_effective_interval 9 600 ∧
    Scheduler.counterAfter 11 .success = 0 ∧
    Scheduler.get_effective_interval (Scheduler.counterAfter 11 .success) 600 = 600 :=
  ⟨c4_scheduler_backoff.1 3 600 (by decide),
   c4_scheduler_backoff.2.1 7 600 (by decide),
   c4_scheduler_backoff.2.2.1 5 9 600 (by decide) (by decide),
   c4_scheduler_backoff.2.2.2 11 600⟩

/-- C10: with at least 5 consecutive failures and a base interval above one
hour, the effective interval is exactly the 3600-second cap — strictly
shorter than the configured base interval, so a persistently failing
scheduler refreshes more often than its schedule. -/
theorem c10_backoff_cap_shortens_long_intervals :
    ∀ failures base, Scheduler.MAX_CONSECUTIVE_FAILURES ≤ failures →
      3600 < base →
      Scheduler.get_effective_interval failures base = 3600 ∧
      Scheduler.get_effective_interval failures base < base := by
  intro failures base h hb
  have hmul : 3600 ≤ base * 2 ^ (min (failures - 5 + 1) 6) := by
    have h1 : 1 ≤ min (failures - 5 + 1) 6 := by
      simp [Scheduler.MAX_CONSECUTIVE_FAILURES] at h
      omega
    have h2 : 2 ≤ 2 ^ (min (failures - 5 + 1) 6) :=
      le_trans (by decide) (Nat.pow_le_pow_right (by decide) h1)
    calc 3600 ≤ base := le_of_lt hb
    _ = base * 1 := by ring
    _ ≤ base * 2 ^ (min (failures - 5 + 1) 6) := Nat.mul_le_mul_left _ (by omega)
  have heq : Scheduler.get_effective_interval failures base = 3600 := by
    unfold Scheduler.get_effective_interval
    rw [if_pos h]
    simpa [Scheduler.FAILURE_BACKOFF_MULTIPLIER, Scheduler.MAX_BACKOFF_SECS,
      Scheduler.MAX_CONSECUTIVE_FAILURES] using Nat.min_eq_right hmul
  exact ⟨heq, by omega⟩

/-- Witness for C10: a maximal-interval period (1440 minutes, i.e. 86400
seconds base) under 5 consecutive failures refreshes every 3600 seconds. -/
theorem c10_backoff_cap_witness :
    Scheduler.get_effective_interval 5 (1440 * 60) = 3600 ∧
    Scheduler.get_effective_interval 5 (1440 * 60) < 1440 * 60 :=
  c10_backoff_cap_shortens_long_intervals 5 (1440 * 60) (by decide) (by decide)

/-- C5: with the driver initialized, `display` on a buffer whose length is
not the fixed 192000 bytes returns `InvalidBufferSize` and performs no bus
operation. -/
theorem c5_display_rejects_wrong_size :
    ∀ (e : Epd7in3e) (fault : BusFault) (buffer : List Nat),
      e.initialized = true → buffer.length ≠ Epd7in3e.BUFFER_SIZE →
      Epd7in3e.display e fault buffer =
        ([], .error (.invalidBufferSize Epd7in3e.BUFFER_SIZE buffer.length)) := by
  intro e fault buffer h1 h2
  unfold Epd7in3e.display
  rw [if_neg (by simp [h1]), if_pos h2]

/-- Witness for C5 at a concrete 1-byte buffer. -/
theorem c5_display_rejects_wrong_size_witness :
    Epd7in3e.display ⟨true⟩ noFault [0] =
      ([], .error (.invalidBufferSize Epd7in3e.BUFFER_SIZE 1)) :=
  c5_display_rejects_wrong_size ⟨true⟩ noFault [0] rfl (by decide)

/-- C9: if any bus operation of the init sequence fails, `init` returns the
error and the driver stays uninitialized (the flag is only assigned after
the whole sequence succeeded). -/
theorem c9_init_failure_leaves_uninitialized :
    ∀ (e : Epd7in3e) (fault : BusFault) (er : DisplayError),
      e.initialized = false →
      (Epd7in3e.init e fault).2.2 = .error er →
      (Epd7in3e.init e fault).1.initialized = false := by
  intro e fault er h0 h1
  unfold Epd7in3e.init at h1 ⊢
  rcases hx : runOps fault Epd7in3e.initOps 0 with ⟨trace, res⟩
  simp only [hx] at h1 ⊢
  cases res
  · exact h0
  · simp at h1

/-- Witness for C9: a busy-wait timeout at the third init operation. -/
theorem c9_init_failure_witness :
    (Epd7in3e.init ⟨false⟩
      (fun i => if i = 2 then some .busyTimeout else none)).1.initialized = false :=
  c9_init_failure_leaves_uninitialized ⟨false⟩
    (fun i => if i = 2 then some .busyTimeout else none) .busyTimeout rfl (by decide)

/-- C2: contrary to the spec scenario, dithering a 3x3 all-white image does
not return a packed buffer: the packed buffer has `3*3/2 = 4` bytes, and the
write for the last pixel targets byte index `(2*3+2)/2 = 4`, out of bounds —
in the Rust code an index-out-of-bounds panic, modelled here as `none`. -/
theorem c2_dither_3x3_out_of_bounds : dither_image (whiteImg 3 3) = none := by
  decide

/-- The delay trace of the retry loop: some prefix of the attempts is made,
and the sleep recorded for the attempt with index `attempt + j` is
`delayOpt retry_delay (attempt + j)`. -/
theorem downloadWithRetryGo_trace (responses : Nat → HttpResponse) (rd : Nat) :
    ∀ (rem attempt : Nat) (le : Option DownloadError) (delays : List (Option Nat)),
      ∃ k, k ≤ rem ∧
        (downloadWithRetryGo responses rd rem attempt le delays).1 =
          delays ++ (List.range k).map (fun j => delayOpt rd (attempt + j)) := by
  intro rem
  induction rem with
  | zero =>
    intro attempt le delays
    exact ⟨0, le_rfl, by simp [downloadWithRetryGo]⟩
  | succ n ih =>
    intro attempt le delays
    unfold downloadWithRetryGo
    cases hs : attemptStep (responses attempt) with
    | ok bytes =>
      refine ⟨1, by omega, ?_⟩
      simp [hs, List.range_succ]
    | error e =>
      obtain ⟨k, hk, heq⟩ := ih (attempt + 1) (some e) (delays ++ [delayOpt rd attempt])
      refine ⟨k + 1, by omega, ?_⟩
      simp only [hs, heq]
      rw [List.append_assoc]
      congr 1
      rw [List.range_succ_eq_map, List.map_cons, List.map_map]
      simp only [List.singleton_append, Nat.add_zero]
      congr 1
      apply List.map_congr_left
      intro j hj
      simp only [Function.comp_apply]
      congr 1
      omega

/-- When every attempt fails, the loop runs all its iterations, records
every delay, and ends with the error of the last attempt. -/
theorem downloadWithRetryGo_allFail (responses : Nat → HttpResponse) (rd : Nat)
    (erf : Nat → DownloadError)
    (hf : ∀ a, attemptStep (responses a) = .error (erf a)) :
    ∀ (rem attempt : Nat) (le : Option DownloadError) (delays : List (Option Nat)),
      1 ≤ rem →
      downloadWithRetryGo responses rd rem attempt le delays =
        (delays ++ (List.range' attempt rem).map (delayOpt rd),
         .error (erf (attempt + rem - 1))) := by
  intro rem
  induction rem with
  | zero => omega
  | succ n ih =>
    intro attempt le delays _
    unfold downloadWithRetryGo
    simp only [hf attempt]
    cases n with
    | zero =>
      simp [downloadWithRetryGo, List.range'_succ]
    | succ m =>
      rw [ih (attempt + 1) (some (erf attempt)) (delays ++ [delayOpt rd attempt])
        (by omega)]
      simp only [Prod.mk.injEq]
      refine ⟨?_, ?_⟩
      · simp [List.range'_succ]
      · have h : attempt + 1 + (m + 1) - 1 = attempt + (m + 1 + 1) - 1 := by omega
        rw [h]

/-- C3 counterexample: with `max_retries = 3`, `base_delay = 2` and every
attempt answered by HTTP 500, the recorded delays are `[none, 2s, 4s]` —
the first attempt is preceded by no delay (the claim's formula
`base_delay * 2^(n-1)` predicts 2s), and the second by 2s (the formula
predicts 4s). -/
theorem c3_counterexample :
    (download_with_retry (fun _ => .resp 500 (some [])) 3 2).1 =
      [none, some 2, some 4] ∧
    (download_with_retry (fun _ => .resp 500 (some [])) 3 2).1.getD 0 (some 0) ≠
      some (2 * 2 ^ (1 - 1)) ∧
    (download_with_retry (fun _ => .resp 500 (some [])) 3 2).1.getD 1 (some 0) ≠
      some (2 * 2 ^ (2 - 1)) := by
  decide

/-- C3 (amended): the fetcher makes at most `max_retries` attempts; no delay
precedes the first attempt, and the delay before attempt `n` (n ≥ 2, 1-based)
is `base_delay * 2^(n-2)`, applied before the attempt; with every attempt
failing with an HTTP status, all `max_retries` attempts are made and the
result is a single terminal error carrying the last observed status. -/
theorem c3_retry_backoff :
    (∀ (responses : Nat → HttpResponse) (mr rd : Nat),
      (download_with_retry responses mr rd).1.length ≤ mr)
    ∧ (∀ (responses : Nat → HttpResponse) (mr rd n : Nat), 2 ≤ n →
      n ≤ (download_with_retry responses mr rd).1.length →
      (download_with_retry responses mr rd).1.getD (n - 1) none =
        some (rd * 2 ^ (n - 2)))
    ∧ (∀ (responses : Nat → HttpResponse) (mr rd : Nat),
      1 ≤ (download_with_retry responses mr rd).1.length →
      (download_with_retry responses mr rd).1.getD 0 none = none)
    ∧ (∀ (st : Nat → Nat) (mr rd : Nat), 1 ≤ mr →
      (∀ a, statusSuccess (st a) = false) →
      download_with_retry (fun a => .resp (st a) (some [])) mr rd =
        ((List.range mr).map (delayOpt rd), .error (.httpError (st (mr - 1))))) := by
  have key : ∀ (responses : Nat → HttpResponse) (mr rd : Nat),
      ∃ k, k ≤ mr ∧ (download_with_retry responses mr rd).1 =
        (List.range k).map (delayOpt rd) := by
    intro responses mr rd
    obtain ⟨k, hk, heq⟩ := downloadWithRetryGo_trace responses rd mr 0 none []
    refine ⟨k, hk, ?_⟩
    simpa using heq
  refine ⟨?_, ?_, ?_, ?_⟩
  · intro responses mr rd
    obtain ⟨k, hk, heq⟩ := key responses mr rd
    simp [heq, hk]
  · intro responses mr rd n h2 hn
    obtain ⟨k, hk, heq⟩ := key responses mr rd
    rw [heq] at hn ⊢
    simp only [List.length_map, List.length_range] at hn
    have hlt : n - 1 < k := by omega
    rw [List.getD_eq_getElem _ _ (by simpa using hlt)]
    simp only [List.getElem_map, List.getElem_range]
    have hpos : n - 1 > 0 := by omega
    simp [delayOpt, hpos, Nat.sub_sub]
  · intro responses mr rd h1
    obtain ⟨k, hk, heq⟩ := key responses mr rd
    rw [heq] at h1 ⊢
    simp only [List.length_map, List.length_range] at h1
    rw [List.getD_eq_getElem _ _ (by simpa using (by omega : 0 < k))]
    simp [List.getElem_map, List.getElem_range, delayOpt]
  · intro st mr rd h1 hst
    have hf : ∀ a, attemptStep ((fun a => HttpResponse.resp (st a) (some [])) a) =
        .error (.httpError (st a)) := by
      intro a
      simp [attemptStep, hst a]
    have := downloadWithRetryGo_allFail (fun a => .resp (st a) (some [])) rd
      (fun a => .httpError (st a)) hf mr 0 none [] h1
    unfold download_with_retry
    rw [this]
    simp [List.range_eq_range']

/-- Witness for C3 (amended) on the spec scenario inputs. -/
theorem c3_retry_backoff_witness :
    download_with_retry (fun _ => .resp 500 (some [])) 3 2 =
      ((List.range 3).map (delayOpt 2), .error (.httpError 500)) :=
  c3_retry_backoff.2.2.2 (fun _ => 500) 3 2 (by decide) (fun _ => rfl)

/-- Any minute-of-day value produced by `parse_time` is below 1440. -/
theorem parse_time_lt_1440 {s : Str} {n : Nat}
    (h : SchedulePeriod.parse_time s = .ok n) : n < 1440 := by
  unfold SchedulePeriod.parse_time at h
  split at h
  · split at h
    · simp at h
    · split at h
      · simp at h
      · split at h
        · simp at h
        · rename_i hcond
          simp only [Except.ok.injEq] at h
          omega
  · simp at h

/-- Modelled from the spec's words ("valid 24-hour HH:MM string", "malformed
(not of the HH:MM shape)"): exactly two decimal digits, a colon, and two
decimal digits.  Used to state claim C8. -/
def specHHMMShape (s : Str) : Bool :=
  match s with
  | [h1, h2, c, m1, m2] =>
    h1.isDigit && h2.isDigit && (c == ':') && m1.isDigit && m2.isDigit
  | _ => false

/-- Canonical rendering of a time of day as an HH:MM string. -/
def renderHHMM (h m : Nat) : Str :=
  [Char.ofNat (48 + h / 10), Char.ofNat (48 + h % 10), ':',
   Char.ofNat (48 + m / 10), Char.ofNat (48 + m % 10)]

/-- C8 counterexample: `parse_time` accepts strings that are not of the
HH:MM shape and are not out of range — Rust `u32` parsing accepts bare and
`+`-prefixed digit strings of any width, so `"1:5"` and `"+1:05"` both
return `Ok(65)` instead of an error. -/
theorem c8_counterexample :
    SchedulePeriod.parse_time "1:5".data = .ok 65 ∧
    specHHMMShape "1:5".data = false ∧
    SchedulePeriod.parse_time "+1:05".data = .ok 65 ∧
    specHHMMShape "+1:05".data = false := by
  decide

set_option maxRecDepth 400000 in
/-- C8 (amended): every valid HH:MM string round-trips to the correct
minute-of-day; a string that does not split into exactly two `:`-separated
fields is rejected, as is one whose two fields `u32`-parse to an
out-of-range hour or minute; every accepted value is a valid minute-of-day
(< 1440); but non-canonical digit strings such as `"1:5"` are accepted. -/
theorem c8_parse_time_round_trip :
    (∀ h, h < 24 → ∀ m, m < 60 →
      SchedulePeriod.parse_time (renderHHMM h m) = .ok (h * 60 + m))
    ∧ (∀ (s : Str) (n : Nat), SchedulePeriod.parse_time s = .ok n → n < 1440)
    ∧ (∀ s : Str, (s.splitOn ':').length ≠ 2 →
      SchedulePeriod.parse_time s = .error (.invalidTimeFormat s))
    ∧ (∀ (s hs ms : Str), s.splitOn ':' = [hs, ms] →
      parseU32 hs = none →
      SchedulePeriod.parse_time s = .error (.invalidHour s))
    ∧ (∀ (s hs ms : Str) (h : Nat), s.splitOn ':' = [hs, ms] →
      parseU32 hs = some h → parseU32 ms = none →
      SchedulePeriod.parse_time s = .error (.invalidMinutes s))
    ∧ (∀ (s hs ms : Str) (h m : Nat), s.splitOn ':' = [hs, ms] →
      parseU32 hs = some h → parseU32 ms = some m → (24 ≤ h ∨ 60 ≤ m) →
      SchedulePeriod.parse_time s = .error (.timeOutOfRange s))
    ∧ SchedulePeriod.parse_time "1:5".data = .ok 65 := by
  refine ⟨by decide, ?_, ?_, ?_, ?_, ?_, by decide⟩
  · intro s n h
    exact parse_time_lt_1440 h
  · intro s hlen
    rcases hsp : s.splitOn ':' with _ | ⟨a, _ | ⟨b, _ | ⟨c', t⟩⟩⟩
    · unfold SchedulePeriod.parse_time
      simp only [hsp]
    · unfold SchedulePeriod.parse_time
      simp only [hsp]
    · rw [hsp] at hlen
      simp at hlen
    · unfold SchedulePeriod.parse_time
      simp only [hsp]
  · intro s hs ms hsp hh
    unfold SchedulePeriod.parse_time
    simp only [hsp, hh]
  · intro s hs ms h hsp hh hm
    unfold SchedulePeriod.parse_time
    simp only [hsp, hh, hm]
  · intro s hs ms h m hsp hh hm hrange
    unfold SchedulePeriod.parse_time
    simp only [hsp, hh, hm]
    rw [if_pos (by omega)]

/-- Witness for C8 (amended): the round trip at 23:59 and the rejection of a
string whose hour field fails `u32` parsing. -/
theorem c8_parse_time_round_trip_witness :
    SchedulePeriod.parse_time (renderHHMM 23 59) = .ok (23 * 60 + 59) ∧
    SchedulePeriod.parse_time "aa:bb".data =
      .error (.invalidHour "aa:bb".data) :=
  ⟨c8_parse_time_round_trip.1 23 (by decide) 59 (by decide),
   c8_parse_time_round_trip.2.2.2.1 "aa:bb".data "aa".data "bb".data
     (by decide) (by decide)⟩

/-- Decomposition of a successful `Except` bind. -/
theorem exceptBind_ok {ε α β : Type} {x : Except ε α} {f : α → Except ε β}
    {b : β} : (x >>= f) = .ok b ↔ ∃ a, x = .ok a ∧ f a = .ok b := by
  cases x <;> simp [Bind.bind, Except.bind]

/-- A successful `List.forM` over `Except` means every element succeeded. -/
theorem listForM_ok {α : Type} {f : α → Except ConfigError Unit} :
    ∀ {l : List α} {u : Unit}, List.forM l f = .ok u → ∀ x ∈ l, f x = .ok () := by
  intro l
  induction l with
  | nil => intro u _ x hx; simp at hx
  | cons a as ih =>
    intro u h x hx
    simp only [List.forM] at h
    obtain ⟨v, h1, h2⟩ := exceptBind_ok.mp h
    rcases List.mem_cons.mp hx with hx | hx
    · subst hx
      cases v
      exact h1
    · exact ih h2 x hx

/-- Success condition of `markRange`: no minute of the range is already
marked. -/
theorem markRange_isOk_iff {cov : Cov} {lo len : Nat} :
    (∃ cov', markRange cov lo len = .ok cov') ↔
      ∀ m, lo ≤ m → m < lo + len → cov m = false := by
  unfold markRange
  cases hf : (List.range' lo len).find? cov with
  | none =>
    simp only []
    constructor
    · intro _ m h1 h2
      have := List.find?_eq_none.mp hf m (List.mem_range'_1.mpr ⟨h1, h2⟩)
      simpa using this
    · intro _
      exact ⟨_, rfl⟩
  | some m0 =>
    simp only []
    constructor
    · rintro ⟨cov', hc⟩
      simp at hc
    · intro hall
      exfalso
      have hm := List.mem_of_find?_eq_some hf
      have hcov := List.find?_some hf
      obtain ⟨h1, h2⟩ := List.mem_range'_1.mp hm
      rw [hall m0 h1 h2] at hcov
      simp at hcov

/-- A successful `markRange` marks exactly the range on top of the previous
table. -/
theorem markRange_ok_apply {cov cov' : Cov} {lo len : Nat}
    (h : markRange cov lo len = .ok cov') (m : Nat) :
    cov' m = ((decide (lo ≤ m) && decide (m < lo + len)) || cov m) := by
  unfold markRange at h
  cases hf : (List.range' lo len).find? cov <;> rw [hf] at h
  · simp only [Except.ok.injEq] at h
    rw [← h]
  · simp at h

/-- The containment test, in terms of the parsed start and end minutes. -/
theorem containsTimeB_eq {p : SchedulePeriod} {s e : Nat}
    (hs : p.start_minutes = .ok s) (he : p.end_minutes = .ok e) (m : Nat) :
    p.containsTimeB m =
      if e ≤ s then (decide (s ≤ m) || decide (m < e))
      else (decide (s ≤ m) && decide (m < e)) := by
  unfold SchedulePeriod.containsTimeB SchedulePeriod.contains_time
  rw [hs, he]
  by_cases hc : e ≤ s <;> simp [hc, Bind.bind, Except.bind, pure, Except.pure]

/-- Both time strings of a period parse. -/
def parsesOk (p : SchedulePeriod) : Prop :=
  (∃ s, p.start_minutes = .ok s) ∧ (∃ e, p.end_minutes = .ok e)

/-- A period accepted by `SchedulePeriod::validate` has parsable times. -/
theorem validate_parsesOk {p : SchedulePeriod} (h : p.validate = .ok ()) :
    parsesOk p := by
  unfold SchedulePeriod.validate at h
  obtain ⟨s, hs, h1⟩ := exceptBind_ok.mp h
  obtain ⟨e, he, _⟩ := exceptBind_ok.mp h1
  exact ⟨⟨s, hs⟩, ⟨e, he⟩⟩

/-- A successful `coverPeriod` marks exactly the minutes the period
contains (below 1440), on top of the previous table. -/
theorem coverPeriod_ok_apply {cov cov' : Cov} {p : SchedulePeriod} {s e : Nat}
    (hs : p.start_minutes = .ok s) (he : p.end_minutes = .ok e)
    (h : coverPeriod cov p = .ok cov') :
    ∀ m, m < 1440 → cov' m = (p.containsTimeB m || cov m) := by
  intro m hm
  have hs1440 : s < 1440 := parse_time_lt_1440 hs
  have he1440 : e < 1440 := parse_time_lt_1440 he
  unfold coverPeriod at h
  rw [hs, he] at h
  simp only [Bind.bind, Except.bind] at h
  rw [containsTimeB_eq hs he m]
  by_cases hc : e ≤ s
  · rw [if_pos hc] at h ⊢
    obtain ⟨cov1, h1, h2⟩ := exceptBind_ok.mp h
    have ha1 := markRange_ok_apply h1 m
    have ha2 := markRange_ok_apply h2 m
    rw [ha2, ha1]
    have hsum : s + (1440 - s) = 1440 := by omega
    rw [hsum]
    simp only [Nat.zero_add]
    have hz : decide (0 ≤ m) = true := by simp
    rw [hz]
    simp only [Bool.true_and]
    have : decide (m < 1440) = true := by simp [hm]
    rw [this]
    simp [Bool.or_comm, Bool.or_assoc, Bool.or_left_comm]
  · rw [if_neg hc] at h ⊢
    have ha := markRange_ok_apply h m
    rw [ha]
    have hsum : s + (e - s) = e := by omega
    rw [hsum]

/-- `coverPeriod` succeeds exactly when none of the period's minutes is
already marked. -/
theorem coverPeriod_isOk_iff {cov : Cov} {p : SchedulePeriod} {s e : Nat}
    (hs : p.start_minutes = .ok s) (he : p.end_minutes = .ok e) :
    (∃ cov', coverPeriod cov p = .ok cov') ↔
      ∀ m, m < 1440 → p.containsTimeB m = true → cov m = false := by
  have hs1440 : s < 1440 := parse_time_lt_1440 hs
  have he1440 : e < 1440 := parse_time_lt_1440 he
  unfold coverPeriod
  rw [hs, he]
  simp only [Bind.bind, Except.bind]
  by_cases hc : e ≤ s
  · rw [if_pos hc]
    constructor
    · rintro ⟨cov', hok⟩
      obtain ⟨cov1, h1, h2⟩ := exceptBind_ok.mp hok
      have hd1 := markRange_isOk_iff.mp ⟨cov1, h1⟩
      have hd2 := markRange_isOk_iff.mp ⟨cov', h2⟩
      intro m hm hb
      rw [containsTimeB_eq hs he m, if_pos hc] at hb
      simp only [Bool.or_eq_true, decide_eq_true_eq] at hb
      rcases hb with hb | hb
      · exact hd1 m hb (by omega)
      · have := hd2 m (by omega) (by omega)
        have ha1 := markRange_ok_apply h1 m
        rw [ha1] at this
        have hns : decide (s ≤ m) = false := by simp; omega
        rw [hns] at this
        simpa using this
    · intro hall
      have h1ex : ∃ cov1, markRange cov s (1440 - s) = .ok cov1 := by
        refine markRange_isOk_iff.mpr ?_
        intro m h1 h2
        refine hall m (by omega) ?_
        rw [containsTimeB_eq hs he m, if_pos hc]
        simp [h1]
      obtain ⟨cov1, h1⟩ := h1ex
      have h2ex : ∃ cov', markRange cov1 0 e = .ok cov' := by
        refine markRange_isOk_iff.mpr ?_
        intro m _ h2
        have ha1 := markRange_ok_apply h1 m
        rw [ha1]
        have hbm : p.containsTimeB m = true := by
          rw [containsTimeB_eq hs he m, if_pos hc]
          simp
          omega
        have := hall m (by omega) hbm
        rw [this]
        have hns : decide (s ≤ m) = false := by simp; omega
        rw [hns]
        simp
      obtain ⟨cov', h2⟩ := h2ex
      exact ⟨cov', exceptBind_ok.mpr ⟨cov1, h1, h2⟩⟩
  · rw [if_neg hc]
    rw [markRange_isOk_iff]
    constructor
    · intro hall m hm hb
      rw [containsTimeB_eq hs he m, if_neg hc] at hb
      simp only [Bool.and_eq_true, decide_eq_true_eq] at hb
      exact hall m hb.1 (by omega)
    · intro hall m h1 h2
      refine hall m (by omega) ?_
      rw [containsTimeB_eq hs he m, if_neg hc]
      simp
      omega

/-- Reduction of a Boolean-guarded count contribution (true case). -/
theorem iteTrue (n k : Nat) : (if (true : Bool) = true then n else k) = n :=
  if_pos rfl

/-- Reduction of a Boolean-guarded count contribution (false case). -/
theorem iteFalse (n k : Nat) : (if (false : Bool) = true then n else k) = k :=
  if_neg (by simp)

/-- A successful fold of `coverPeriod` marks exactly the minutes contained
in some period of the list. -/
theorem foldCover_ok_apply :
    ∀ (ps : List SchedulePeriod) (cov cov' : Cov),
      (∀ p ∈ ps, parsesOk p) →
      ps.foldlM coverPeriod cov = .ok cov' →
      ∀ m, m < 1440 →
        cov' m = (ps.any (fun p => p.containsTimeB m) || cov m) := by
  intro ps
  induction ps with
  | nil =>
    intro cov cov' _ h m _
    simp only [List.foldlM] at h
    simp only [pure, Except.pure, Except.ok.injEq] at h
    rw [← h]
    simp
  | cons p ps ih =>
    intro cov cov' hp h m hm
    rw [List.foldlM_cons] at h
    obtain ⟨cov1, h1, h2⟩ := exceptBind_ok.mp h
    obtain ⟨⟨s, hs⟩, ⟨e, he⟩⟩ := hp p (by simp)
    have hap := coverPeriod_ok_apply hs he h1 m hm
    have hrec := ih cov1 cov' (fun q hq => hp q (by simp [hq])) h2 m hm
    rw [hrec, hap]
    simp [List.any_cons, Bool.or_comm, Bool.or_assoc, Bool.or_left_comm]

/-- The fold of `coverPeriod` succeeds exactly when, for every minute, the
number of periods containing it plus its prior mark stays within one. -/
theorem foldCover_isOk_iff :
    ∀ (ps : List SchedulePeriod) (cov : Cov),
      (∀ p ∈ ps, parsesOk p) →
      ((∃ cov', ps.foldlM coverPeriod cov = .ok cov') ↔
        ∀ m, m < 1440 →
          ps.countP (fun p => p.containsTimeB m) +
            (if cov m then 1 else 0) ≤ 1) := by
  intro ps
  induction ps with
  | nil =>
    intro cov _
    constructor
    · intro _ m _
      simp only [List.countP_nil, Nat.zero_add]
      split <;> omega
    · intro _
      refine ⟨cov, ?_⟩
      simp only [List.foldlM]
      rfl
  | cons p ps ih =>
    intro cov hp
    obtain ⟨⟨s, hs⟩, ⟨e, he⟩⟩ := hp p (by simp)
    rw [List.foldlM_cons]
    constructor
    · rintro ⟨cov', hok⟩
      obtain ⟨cov1, h1, h2⟩ := exceptBind_ok.mp hok
      have hdisj := (coverPeriod_isOk_iff hs he).mp ⟨cov1, h1⟩
      have hinv := (ih cov1 (fun q hq => hp q (by simp [hq]))).mp ⟨cov', h2⟩
      intro m hm
      have hc1 := coverPeriod_ok_apply hs he h1 m
      have hbound := hinv m hm
      rw [hc1 hm] at hbound
      have hd := hdisj m hm
      rw [List.countP_cons]
      cases hb : p.containsTimeB m
      · cases hcv : cov m
        · rw [hb, hcv] at hbound
          simp [hb, hcv] at hbound ⊢
          try omega
          try exact hbound
        · rw [hb, hcv] at hbound
          simp [hb, hcv] at hbound ⊢
          try omega
          try exact hbound
      · have hcvf : cov m = false := hd hb
        rw [hb, hcvf] at hbound
        simp [hb, hcvf] at hbound ⊢
        try omega
        try exact hbound
    · intro hinv
      have h1ex : ∃ cov1, coverPeriod cov p = .ok cov1 := by
        refine (coverPeriod_isOk_iff hs he).mpr ?_
        intro m hm hcb
        have hv := hinv m hm
        rw [List.countP_cons] at hv
        cases hcv : cov m
        · rfl
        · rw [hcb, hcv] at hv
          simp at hv
      obtain ⟨cov1, h1⟩ := h1ex
      have happ := coverPeriod_ok_apply hs he h1
      have hnext : ∀ m, m < 1440 →
          ps.countP (fun q => q.containsTimeB m) +
            (if cov1 m then 1 else 0) ≤ 1 := by
        intro m hm
        have hv := hinv m hm
        rw [List.countP_cons] at hv
        rw [happ m hm]
        cases hb : p.containsTimeB m
        · cases hcv : cov m
          · rw [hb, hcv] at hv
            simp [hb, hcv] at hv ⊢
            try omega
            try exact hv
          · rw [hb, hcv] at hv
            simp [hb, hcv] at hv ⊢
            try omega
            try exact hv
        · cases hcv : cov m
          · rw [hb, hcv] at hv
            simp [hb, hcv] at hv ⊢
            try omega
            try exact hv
          · rw [hb, hcv] at hv
            simp [hb, hcv] at hv ⊢
            try omega
            try exact hv
      obtain ⟨cov', h2⟩ := (ih cov1 (fun q hq => hp q (by simp [hq]))).mpr hnext
      exact ⟨cov', exceptBind_ok.mpr ⟨cov1, h1, h2⟩⟩

/-- Characterization of `validate_coverage` for non-degenerate plans with
parsable periods: acceptance is equivalent to every minute of the day being
contained in exactly one period. -/
theorem validate_coverage_ok_iff {plan : SchedulePlan}
    (hp : ∀ p ∈ plan.periods, parsesOk p)
    (hd : plan.isDegenerateAllDay = false) :
    (plan.validate_coverage = .ok () ↔
      ∀ m, m < 1440 →
        plan.periods.countP (fun p => p.containsTimeB m) = 1) := by
  unfold SchedulePlan.validate_coverage
  rw [hd]
  simp only [Bool.false_eq_true, if_false]
  constructor
  · intro h
    obtain ⟨cov', hfold, hrest⟩ := exceptBind_ok.mp h
    intro m hm
    have hle := (foldCover_isOk_iff plan.periods (fun _ => false) hp).mp
      ⟨cov', hfold⟩ m hm
    simp only [iteFalse, Nat.add_zero] at hle
    cases hfind : (List.range 1440).find? (fun m => ! cov' m) with
    | some m0 =>
      rw [hfind] at hrest
      simp at hrest
    | none =>
      have hall := List.find?_eq_none.mp hfind m
        (by simpa [List.mem_range] using hm)
      simp only [Bool.not_eq_true', Bool.not_eq_false] at hall
      have happ := foldCover_ok_apply plan.periods _ cov' hp hfold m hm
      rw [hall] at happ
      simp only [Bool.or_false] at happ
      have hany : plan.periods.any (fun p => p.containsTimeB m) = true :=
        happ.symm
      obtain ⟨p, hpmem, hpb⟩ := List.any_eq_true.mp hany
      have : 0 < plan.periods.countP (fun p => p.containsTimeB m) :=
        List.countP_pos_iff.mpr ⟨p, hpmem, hpb⟩
      omega
  · intro hcnt
    have hex : ∃ cov',
        plan.periods.foldlM coverPeriod (fun _ => false) = .ok cov' := by
      refine (foldCover_isOk_iff _ _ hp).mpr ?_
      intro m hm
      rw [iteFalse]
      simp [hcnt m hm]
    obtain ⟨cov', hfold⟩ := hex
    have happ := foldCover_ok_apply plan.periods _ cov' hp hfold
    refine exceptBind_ok.mpr ⟨cov', hfold, ?_⟩
    have hfind : (List.range 1440).find? (fun m => ! cov' m) = none := by
      rw [List.find?_eq_none]
      intro m hmem
      have hm : m < 1440 := by simpa [List.mem_range] using hmem
      have h1 := hcnt m hm
      have hpos : 0 < plan.periods.countP (fun p => p.containsTimeB m) := by
        omega
      obtain ⟨p, hpmem, hpb⟩ := List.countP_pos_iff.mp hpos
      have hany : plan.periods.any (fun p => p.containsTimeB m) = true :=
        List.any_eq_true.mpr ⟨p, hpmem, hpb⟩
      have := happ m hm
      rw [hany] at this
      simp only [Bool.true_or] at this
      simp [this]
    rw [hfind]

/-- Decomposition of a successful `SchedulePlan::validate`: the periods each
validate, and the coverage check passes. -/
theorem planValidate_parts {plan : SchedulePlan} (h : plan.validate = .ok ()) :
    (∀ p ∈ plan.periods, p.validate = .ok ()) ∧
      plan.validate_coverage = .ok () := by
  unfold SchedulePlan.validate at h
  split at h
  · simp at h
  · split at h
    · simp at h
    · obtain ⟨u, h1, h2⟩ := exceptBind_ok.mp h
      exact ⟨fun p hp => listForM_ok h1 p hp, h2⟩

/-- The degenerate all-day plan has a single period containing every
minute. -/
theorem degenerate_plan_spec {plan : SchedulePlan}
    (hd : plan.isDegenerateAllDay = true) :
    ∃ p, plan.periods = [p] ∧ ∀ m, p.containsTimeB m = true := by
  unfold SchedulePlan.isDegenerateAllDay at hd
  rcases hpp : plan.periods with _ | ⟨p, _ | ⟨q, t⟩⟩ <;> rw [hpp] at hd
  · simp at hd
  · refine ⟨p, rfl, ?_⟩
    simp only [Bool.and_eq_true, beq_iff_eq] at hd
    obtain ⟨hst, het⟩ := hd
    have hs : p.start_minutes = .ok 0 := by
      unfold SchedulePeriod.start_minutes
      rw [hst]
      decide
    have he : p.end_minutes = .ok 0 := by
      unfold SchedulePeriod.end_minutes
      rw [het]
      decide
    intro m
    rw [containsTimeB_eq hs he m]
    simp
  · simp at hd

/-- C7: for a plan whose periods individually validate and which is not the
degenerate all-day shorthand, the coverage check accepts exactly when every
one of the 1440 minutes of the day is contained in exactly one period (no
gap, no overlap) — and fails whenever some minute is uncovered or doubly
covered. -/
theorem c7_coverage_partition :
    ∀ (plan : SchedulePlan), (∀ p ∈ plan.periods, p.validate = .ok ()) →
      plan.isDegenerateAllDay = false →
      (plan.validate_coverage = .ok () ↔
        ∀ m, m < 1440 →
          plan.periods.countP (fun p => p.containsTimeB m) = 1) :=
  fun _ hv hd =>
    validate_coverage_ok_iff (fun p hp => validate_parsesOk (hv p hp)) hd

set_option maxRecDepth 400000 in
/-- Witness for C7 on the spec's two-period day/night plan at minute 01:30. -/
theorem c7_coverage_partition_witness :
    dayNightPlan.periods.countP (fun p => p.containsTimeB 90) = 1 :=
  (c7_coverage_partition dayNightPlan (by decide) (by decide)).mp
    (by decide) 90 (by decide)

/-- C6: for every validated plan and minute, exactly one period contains the
minute and the lookup returns a containing period; and whenever no period
contains the minute the lookup falls back to the plan's first period. -/
theorem c6_active_period_selection :
    (∀ (plan : SchedulePlan), plan.validate = .ok () → ∀ m, m < 1440 →
      plan.periods.countP (fun p => p.containsTimeB m) = 1 ∧
      ∃ p, plan.get_period_for_time m = some p ∧ p.containsTimeB m = true)
    ∧ (∀ (plan : SchedulePlan) (m : Nat),
      (∀ p ∈ plan.periods, p.containsTimeB m = false) →
      plan.get_period_for_time m = plan.periods.head?) := by
  constructor
  · intro plan hv m hm
    obtain ⟨hpv, hcov⟩ := planValidate_parts hv
    have hcount : plan.periods.countP (fun p => p.containsTimeB m) = 1 := by
      cases hd : plan.isDegenerateAllDay
      · exact (validate_coverage_ok_iff
          (fun p hp => validate_parsesOk (hpv p hp)) hd).mp hcov m hm
      · obtain ⟨p, hpp, hall⟩ := degenerate_plan_spec hd
        rw [hpp]
        simp [List.countP_cons, hall m]
    refine ⟨hcount, ?_⟩
    have hpos : 0 < plan.periods.countP (fun p => p.containsTimeB m) := by
      omega
    obtain ⟨p, hpmem, hpb⟩ := List.countP_pos_iff.mp hpos
    have hfind : (plan.periods.find? (fun p => p.containsTimeB m)).isSome :=
      List.find?_isSome.mpr ⟨p, hpmem, hpb⟩
    obtain ⟨q, hq⟩ := Option.isSome_iff_exists.mp hfind
    have hqb : (fun p => SchedulePeriod.containsTimeB p m) q = true :=
      @List.find?_some SchedulePeriod (fun p => p.containsTimeB m) q
        plan.periods hq
    refine ⟨q, ?_, by simpa using hqb⟩
    unfold SchedulePlan.get_period_for_time
    rw [hq]
  · intro plan m hall
    unfold SchedulePlan.get_period_for_time
    have hnone : plan.periods.find? (fun p => p.containsTimeB m) = none :=
      List.find?_eq_none.mpr (fun x hx => by simp [hall x hx])
    rw [hnone]

/-- Witness for C6 on the default all-day plan at minute 12:57. -/
theorem c6_active_period_selection_witness :
    SchedulePlan.default_plan.periods.countP
      (fun p => p.containsTimeB 777) = 1 ∧
    ∃ p, SchedulePlan.default_plan.get_period_for_time 777 = some p ∧
      p.containsTimeB 777 = true :=
  c6_active_period_selection.1 SchedulePlan.default_plan (by decide) 777
    (by decide)

/-- A successful checked write leaves the buffer length unchanged. -/
theorem setByte_some_length {buf buf' : List Nat} {i : Nat} {f : Nat → Nat}
    (h : setByte buf i f = some buf') : buf'.length = buf.length := by
  unfold setByte at h
  cases hg : buf.get? i <;> rw [hg] at h
  · simp at h
  · simp only [Option.some.injEq] at h
    rw [← h, List.length_set]

/-- A checked write succeeds exactly when the index is in bounds. -/
theorem setByte_isSome_iff {buf : List Nat} {i : Nat} {f : Nat → Nat} :
    (∃ buf', setByte buf i f = some buf') ↔ i < buf.length := by
  unfold setByte
  cases hg : buf.get? i
  · rw [List.get?_eq_getElem?] at hg
    constructor
    · rintro ⟨buf', hb⟩
      simp at hb
    · intro hi
      rw [List.getElem?_eq_getElem hi] at hg
      simp at hg
  · constructor
    · intro _
      have := List.get?_eq_some.mp hg
      exact this.1
    · intro _
      exact ⟨_, rfl⟩

/-- One dither pixel step preserves the output-buffer length. -/
theorem ditherPixel_length {w h y x : Nat} {st st' : DitherSt}
    (hp : ditherPixel w h y x st = some st') :
    st'.result.length = st.result.length := by
  simp only [ditherPixel] at hp
  rw [Option.map_eq_some'] at hp
  obtain ⟨res, hres, hst⟩ := hp
  rw [← hst]
  exact setByte_some_length hres

/-- One dither pixel step succeeds exactly when its packed byte index is in
bounds. -/
theorem ditherPixel_isSome_iff {w h y x : Nat} {st : DitherSt} :
    (∃ st', ditherPixel w h y x st = some st') ↔
      (y * w + x) / 2 < st.result.length := by
  rw [← Option.isSome_iff_exists]
  simp only [ditherPixel, Option.isSome_map']
  rw [Option.isSome_iff_exists]
  exact setByte_isSome_iff

/-- The inner row loop succeeds when every byte index of the row is in
bounds, and preserves the output length. -/
theorem ditherRowGo_ok {w h y : Nat} :
    ∀ (rem x : Nat) (st : DitherSt), rem + x = w →
      (∀ i, i < w → (y * w + i) / 2 < st.result.length) →
      ∃ st', ditherRowGo w h y rem x st = some st' ∧
        st'.result.length = st.result.length := by
  intro rem
  induction rem with
  | zero =>
    intro x st _ _
    exact ⟨st, rfl, rfl⟩
  | succ n ih =>
    intro x st hsum hbound
    have hx : x < w := by omega
    obtain ⟨st1, h1⟩ := ditherPixel_isSome_iff.mpr (hbound x hx)
    have hl1 : st1.result.length = st.result.length := ditherPixel_length h1
    obtain ⟨st', h2, hl2⟩ := ih (x + 1) st1 (by omega)
      (fun i hi => by rw [hl1]; exact hbound i hi)
    refine ⟨st', ?_, by rw [hl2, hl1]⟩
    unfold ditherRowGo
    rw [h1]
    exact h2

/-- The outer row loop succeeds when every byte index of the image is in
bounds, and preserves the output length. -/
theorem ditherRowsGo_ok (img : ImageRGB) :
    ∀ (rem y : Nat) (st : DitherSt), rem + y = img.height →
      (∀ j i, j < img.height → i < img.width →
        (j * img.width + i) / 2 < st.result.length) →
      ∃ st', ditherRowsGo img rem y st = some st' ∧
        st'.result.length = st.result.length := by
  intro rem
  induction rem with
  | zero =>
    intro y st _ _
    exact ⟨st, rfl, rfl⟩
  | succ n ih =>
    intro y st hsum hbound
    have hy : y < img.height := by omega
    obtain ⟨st1, h1, hl1⟩ := @ditherRowGo_ok img.width img.height y
      img.width 0 { st with curr := loadRow img y st.curr } (by omega)
      (fun i hi => hbound y i hy hi)
    obtain ⟨st', h2, hl2⟩ := ih (y + 1)
      { curr := st1.next
        next := st1.curr.map (fun _ => ((0 : Int), (0 : Int), (0 : Int)))
        result := st1.result }
      (by omega) (fun j i hj hi => by
        show (j * img.width + i) / 2 < st1.result.length
        rw [hl1]
        exact hbound j i hj hi)
    refine ⟨st', ?_, by rw [hl2]; show st1.result.length = _; rw [hl1]⟩
    simp only [ditherRowsGo]
    rw [h1]
    exact h2

/-- For an image with an even number of pixels the dither stage returns a
packed buffer of exactly `width * height / 2` bytes. -/
theorem dither_image_ok (img : ImageRGB)
    (hdvd : 2 ∣ img.width * img.height) :
    ∃ buf, dither_image img = some buf ∧
      buf.length = calculate_buffer_size img.width img.height := by
  have hbound : ∀ j i, j < img.height → i < img.width →
      (j * img.width + i) / 2 < img.width * img.height / 2 := by
    intro j i hj hi
    have h1 : (j + 1) * img.width ≤ img.height * img.width :=
      Nat.mul_le_mul_right _ (by omega)
    have h2 : j * img.width + i < (j + 1) * img.width := by
      rw [Nat.succ_mul]
      omega
    have h3 : j * img.width + i < img.width * img.height := by
      have h4 := lt_of_lt_of_le h2 h1
      rwa [Nat.mul_comm img.height img.width] at h4
    obtain ⟨k, hk⟩ := hdvd
    rw [hk] at h3 ⊢
    omega
  obtain ⟨st', hrun, hlen⟩ := ditherRowsGo_ok img img.height 0
    { curr := List.replicate img.width (0, 0, 0)
      next := List.replicate img.width (0, 0, 0)
      result := List.replicate (calculate_buffer_size img.width img.height) 0 }
    (by omega)
    (fun j i hj hi => by
      simpa [calculate_buffer_size] using hbound j i hj hi)
  refine ⟨st'.result, ?_, by simpa [calculate_buffer_size] using hlen⟩
  simp only [dither_image]
  rw [hrun]
  rfl

/-- On a fault-free bus every operation of a sequence completes. -/
theorem runOps_noFault_ok : ∀ (ops : List BusOp) (i : Nat),
    runOps noFault ops i = (ops, .ok ()) := by
  intro ops
  induction ops with
  | nil => intro i; rfl
  | cons op rest ih =>
    intro i
    unfold runOps
    simp [noFault, ih (i + 1)]

/-- On a fault-free bus, an initialized driver accepts a buffer exactly when
its length is the fixed `BUFFER_SIZE`. -/
theorem display_noFault_ok_iff {buf : List Nat} :
    (Epd7in3e.display ⟨true⟩ noFault buf).2 = .ok () ↔
      buf.length = Epd7in3e.BUFFER_SIZE := by
  unfold Epd7in3e.display
  by_cases hl : buf.length = Epd7in3e.BUFFER_SIZE
  · rw [if_neg (by simp), if_neg (by simp [hl])]
    simp [runOps_noFault_ok, hl]
  · rw [if_neg (by simp), if_pos hl]
    simp [hl]

/-- Output dimensions of the geometric transform stage in fit mode
(`scale_to_fit` in src/image_proc/transform.rs): the canvas is created by
`RgbImage::from_pixel(max_width, max_height, white)` and the resized source
is overlaid onto it, so the output always has exactly the configured target
geometry — rotation and mirroring happen before scaling and do not change
the final canvas size. -/
def transformOutputDims (c : Config) : Nat × Nat :=
  (c.display_width, c.display_height)

/-- C1 counterexample: the configuration with geometry 400x300 passes
validation, the pipeline's transform stage targets 400x300 so the dither
stage packs `400*300/2 = 60000` bytes — not the panel's native 192000 — and
`display()` rejects that buffer with `InvalidBufferSize`. -/
theorem c1_counterexample :
    cfg400.validate = .ok () ∧
    calculate_buffer_size (transformOutputDims cfg400).1
      (transformOutputDims cfg400).2 = 60000 ∧
    (60000 : Nat) ≠ Epd7in3e.BUFFER_SIZE ∧
    (Epd7in3e.display ⟨true⟩ noFault (List.replicate 60000 0)).2 =
      .error (.invalidBufferSize Epd7in3e.BUFFER_SIZE 60000) := by
  refine ⟨by decide, by decide, by decide, ?_⟩
  have hlen : (List.replicate 60000 (0 : Nat)).length = 60000 :=
    List.length_replicate _ _
  unfold Epd7in3e.display
  rw [if_neg (by simp)]
  rw [hlen]
  rw [if_pos (by decide)]

/-- C1 (amended): for every validated configuration in fit mode with an even
`width*height`, the pipeline's dither stage returns a packed buffer of
`display_width * display_height / 2` bytes (the transform stage outputs the
configured geometry, not the panel's native one), and the driver accepts
that buffer iff this size equals the native 192000 bytes — as it does for
the default 800x480 geometry. -/
theorem c1_pipeline_buffer_size :
    ∀ (c : Config), c.validate = .ok () → c.scale_to_fit = true →
      2 ∣ c.display_width * c.display_height →
      ∀ (img : ImageRGB), img.width = (transformOutputDims c).1 →
        img.height = (transformOutputDims c).2 →
        ∃ buf, dither_image img = some buf ∧
          buf.length =
            calculate_buffer_size c.display_width c.display_height ∧
          ((Epd7in3e.display ⟨true⟩ noFault buf).2 = .ok () ↔
            calculate_buffer_size c.display_width c.display_height =
              Epd7in3e.BUFFER_SIZE) := by
  intro c _ _ hdvd img hw hh
  obtain ⟨buf, hbuf, hlen⟩ := dither_image_ok img (by rw [hw, hh]; exact hdvd)
  have hcalc : calculate_buffer_size img.width img.height =
      calculate_buffer_size c.display_width c.display_height := by
    rw [hw, hh]
    rfl
  refine ⟨buf, hbuf, by rw [hlen, hcalc], ?_⟩
  rw [display_noFault_ok_iff, hlen, hcalc]

/-- Witness for C1 (amended) on the default 800x480 configuration. -/
theorem c1_pipeline_buffer_size_witness :
    ∃ buf, dither_image (whiteImg 800 480) = some buf ∧
      buf.length = calculate_buffer_size Config.defaultConfig.display_width
        Config.defaultConfig.display_height ∧
      ((Epd7in3e.display ⟨true⟩ noFault buf).2 = .ok () ↔
        calculate_buffer_size Config.defaultConfig.display_width
          Config.defaultConfig.display_height = Epd7in3e.BUFFER_SIZE) :=
  c1_pipeline_buffer_size Config.defaultConfig (by decide) rfl (by decide)
    (whiteImg 800 480) rfl rfl
